import Mathlib

/-!
Verification of the volumetric reconstruction and inference-postprocessing
pipeline of `src/backend/biomedparse_api.py` (Novion).

The Python functions are shallowly embedded: machine floats are modelled by
`ℚ`, numpy arrays by (nested) lists, `None`-able DICOM attributes by
`Option`, exceptions by `Except`/`Option`.  Each definition names the source
function it embeds.
-/

deriving instance DecidableEq for Except

namespace Novion

/-! ## Vectors (numpy 3-vector helpers used by `_stack_dicom_series_from_dir`) -/

/-- Dot product of two 3-vectors given as lists (`np.dot` on length-3 arrays). -/
def dot3 (u v : List ℚ) : ℚ :=
  u.getD 0 0 * v.getD 0 0 + u.getD 1 0 * v.getD 1 0 + u.getD 2 0 * v.getD 2 0

/-- Componentwise difference of two 3-vectors (`ipp_vec - ref_ipp`). -/
def sub3 (u v : List ℚ) : List ℚ :=
  [u.getD 0 0 - v.getD 0 0, u.getD 1 0 - v.getD 1 0, u.getD 2 0 - v.getD 2 0]

/-- Cross product of two 3-vectors (`np.cross(row, col)`). -/
def cross3 (u v : List ℚ) : List ℚ :=
  [u.getD 1 0 * v.getD 2 0 - u.getD 2 0 * v.getD 1 0,
   u.getD 2 0 * v.getD 0 0 - u.getD 0 0 * v.getD 2 0,
   u.getD 0 0 * v.getD 1 0 - u.getD 1 0 * v.getD 0 0]

/-! ## Data model of one parsed DICOM slice -/

/-- One successfully parsed DICOM file, as read in the per-file `try` block of
`_stack_dicom_series_from_dir`: the rescaled pixel array
(`arr * slope + intercept`) together with the optional geometry/ordering tags
(`ImagePositionPatient`, `ImageOrientationPatient`, `InstanceNumber`,
`SliceLocation`). -/
structure RawSlice where
  pixels : List (List ℚ)
  ipp : Option (List ℚ)
  iop : Option (List ℚ)
  instanceNumber : Option ℚ
  sliceLocation : Option ℚ
deriving DecidableEq

/-- One candidate file of the extracted archive: its file name and the outcome
of the whole per-file `try` block (`none` models any exception: unreadable
file, missing pixel data, malformed tags — the block ends in `continue`). -/
structure DFile where
  name : String
  parse : Option RawSlice
deriving DecidableEq

/-- The geometry test of the source:
`ipp is not None and iop is not None and len(ipp) == 3 and len(iop) == 6`.
Returns the two vectors when the slice is geometry-resolvable. -/
def geoFields (s : RawSlice) : Option (List ℚ × List ℚ) :=
  match s.ipp, s.iop with
  | some ipp, some iop =>
      if ipp.length = 3 ∧ iop.length = 6 then some (ipp, iop) else none
  | _, _ => none

/-- A slice together with its computed sort key, its index in parse order
(bookkeeping used only to state ordering properties) and the branch
(`geo = true` for `robust_slices`, `false` for `fallback_slices`) that
classified it. -/
structure Tagged where
  key : ℚ
  idx : ℕ
  geo : Bool
  slice : RawSlice
deriving DecidableEq

/-- The loop state of `_stack_dicom_series_from_dir`: the two accumulator
lists and the geometric reference fixed at the first geometry-resolvable
slice. -/
structure ClassState where
  robust : List Tagged
  fallback : List Tagged
  refIpp : Option (List ℚ)
  refNormal : Option (List ℚ)
deriving DecidableEq

/-- The fallback order key of a slice: `float(sl)` if `SliceLocation` is
present, else `float(ins)` if `InstanceNumber` is present, else `0.0`. -/
def fallbackKey (s : RawSlice) : ℚ :=
  s.sliceLocation.getD (s.instanceNumber.getD 0)

/-- The geometric order key the loop computes for a geometry-resolvable
slice: the signed dot product of `(position − reference position)` with the
reference normal.  `if reference_ipp is None` the slice itself becomes the
reference, so the reference used is `st.refIpp.getD ipp` and likewise for
the normal (the source sets the reference before reading it back, which
amounts to the same `getD`). -/
def geoKey (st : ClassState) (ipp iop : List ℚ) : ℚ :=
  let normal := cross3 (iop.take 3) (iop.drop 3)
  let refP := st.refIpp.getD ipp
  let refN := if st.refIpp = none then normal else st.refNormal.getD normal
  dot3 (sub3 ipp refP) refN

/-- One iteration of the classification loop of
`_stack_dicom_series_from_dir` on a parsed slice `s` with parse index `i`. -/
def classifyStep (st : ClassState) (i : ℕ) (s : RawSlice) : ClassState :=
  match geoFields s with
  | some (ipp, iop) =>
      { robust := st.robust ++ [⟨geoKey st ipp iop, i, true, s⟩],
        fallback := st.fallback,
        refIpp := some (st.refIpp.getD ipp),
        refNormal := some (if st.refIpp = none then cross3 (iop.take 3) (iop.drop 3)
          else st.refNormal.getD (cross3 (iop.take 3) (iop.drop 3))) }
  | none =>
      { st with fallback := st.fallback ++ [⟨fallbackKey s, i, false, s⟩] }

/-- The classification loop, indexed by the next parse index. -/
def classifyAux (i : ℕ) (st : ClassState) : List RawSlice → ClassState
  | [] => st
  | s :: rest => classifyAux (i + 1) (classifyStep st i s) rest

/-- Classification of the parsed slices, starting from the empty state
(`robust_slices = []`, `fallback_slices = []`, `reference_ipp = None`,
`reference_normal = None`). -/
def classifySlices (slices : List RawSlice) : ClassState :=
  classifyAux 0 ⟨[], [], none, none⟩ slices

/-- The comparison Python's stable `list.sort(key=lambda x: x[0])` uses:
order by the sort key alone. -/
def keyLE (a b : Tagged) : Bool := a.key ≤ b.key

/-- The extension filter of the discovery walk:
`fn.lower().endswith((".dcm", ".dicom"))`. -/
def isDicomName (name : String) : Bool :=
  name.toLower.endsWith ".dcm" || name.toLower.endsWith ".dicom"

/-- Errors `_stack_dicom_series_from_dir` raises (both `ValueError`s in the
source; the spec calls them `NoDicomFound` and `EmptySeries`). -/
inductive StackError where
  | noDicomFound
  | emptySeries
deriving DecidableEq

/-- The parsed slices of a file list, in discovery order: the walk filtered
to DICOM extensions, each file read by the per-file `try` block, failures
skipped (`continue`). -/
def parsedSlices (files : List DFile) : List RawSlice :=
  (files.filter fun f => isDicomName f.name).filterMap fun f => f.parse

/-- The ordering part of `_stack_dicom_series_from_dir`: discovery filter,
per-file parsing (failures skipped), classification, and the two stable
sorts concatenated (`robust_slices` first, `fallback_slices` second).
Sorting and appending an empty group is a no-op, so the source's
`if robust_slices:` / `if fallback_slices:` guards around `sort` + `extend`
need no separate branch. -/
def stackTagged (files : List DFile) : Except StackError (List Tagged) :=
  if (files.filter fun f => isDicomName f.name).isEmpty then .error .noDicomFound
  else if (classifySlices (parsedSlices files)).robust.isEmpty ∧
      (classifySlices (parsedSlices files)).fallback.isEmpty then .error .emptySeries
  else .ok ((classifySlices (parsedSlices files)).robust.mergeSort keyLE ++
    (classifySlices (parsedSlices files)).fallback.mergeSort keyLE)

/-- `h = min(a.shape[0] for a in arrays)`, `w = min(a.shape[1] ...)`,
`arrays_clipped = [a[:h, :w] for a in arrays]`, `np.stack(..., axis=0)`:
crop every slice to the minimum shared height/width and stack. -/
def cropStack (arrays : List (List (List ℚ))) : List (List (List ℚ)) :=
  match (arrays.map fun a => a.length).min?,
        (arrays.map fun a => (a.headD []).length).min? with
  | some h, some w => arrays.map fun a => (a.take h).map fun row => row.take w
  | _, _ => []

/-- `_stack_dicom_series_from_dir`: the full function, producing the `[D,H,W]`
volume (as nested lists) or one of the two fatal errors. -/
def _stack_dicom_series_from_dir (files : List DFile) :
    Except StackError (List (List (List ℚ))) :=
  (stackTagged files).map fun tagged => cropStack (tagged.map fun x => x.slice.pixels)

/-- Strict ordering that characterises the output of a stable ascending sort
by `key`: either the key strictly grows, or the keys tie and the earlier
parse index comes first. -/
def stableLT (a b : Tagged) : Prop :=
  a.key < b.key ∨ (a.key = b.key ∧ a.idx < b.idx)

theorem keyLE_trans : ∀ a b c : Tagged, keyLE a b → keyLE b c → keyLE a c := by
  intro a b c hab hbc
  simp only [keyLE, decide_eq_true_eq] at *
  exact le_trans hab hbc

theorem keyLE_total : ∀ a b : Tagged, keyLE a b || keyLE b a := by
  intro a b
  simp only [keyLE, Bool.or_eq_true, decide_eq_true_eq]
  exact le_total a.key b.key

/-- A stable sort by key of a list whose parse indices strictly increase is
pairwise `stableLT`: ascending keys, ties in parse order.  Derived from the
kernel `mergeSort` stability lemma `mergeSort_enum`. -/
theorem mergeSort_key_stable {l : List Tagged}
    (hidx : l.Pairwise fun a b => a.idx < b.idx) :
    (l.mergeSort keyLE).Pairwise stableLT := by
  have hmap : (List.mergeSort l.enum (List.enumLE keyLE)).map Prod.snd =
      l.mergeSort keyLE := List.mergeSort_enum
  rw [← hmap, List.pairwise_map]
  have hsorted : (List.mergeSort l.enum (List.enumLE keyLE)).Pairwise
      (fun a b => List.enumLE keyLE a b = true) :=
    List.sorted_mergeSort (List.enumLE_trans keyLE_trans)
      (List.enumLE_total keyLE_total) _
  have hperm : List.Perm (List.mergeSort l.enum (List.enumLE keyLE)) l.enum :=
    List.mergeSort_perm _ _
  have hfst : (List.mergeSort l.enum (List.enumLE keyLE)).Pairwise
      (fun a b => a.1 ≠ b.1) := by
    have hnd : ((List.mergeSort l.enum (List.enumLE keyLE)).map Prod.fst).Nodup := by
      refine ((hperm.map Prod.fst).nodup_iff).2 ?_
      rw [List.enum_map_fst]
      exact List.nodup_range _
    exact List.pairwise_map.1 hnd
  refine (hsorted.and hfst).imp_of_mem ?_
  intro a b ha hb hab
  obtain ⟨hle, hne⟩ := hab
  have ha' : l[a.1]? = some a.2 :=
    List.mem_enum_iff_getElem?.1 (List.mem_mergeSort.1 ha)
  have hb' : l[b.1]? = some b.2 :=
    List.mem_enum_iff_getElem?.1 (List.mem_mergeSort.1 hb)
  obtain ⟨hai, haeq⟩ := List.getElem?_eq_some_iff.1 ha'
  obtain ⟨hbi, hbeq⟩ := List.getElem?_eq_some_iff.1 hb'
  simp only [List.enumLE, keyLE] at hle
  by_cases h1 : a.2.key ≤ b.2.key
  · rcases lt_or_eq_of_le h1 with hlt | heq
    · exact Or.inl hlt
    · refine Or.inr ⟨heq, ?_⟩
      have h2 : b.2.key ≤ a.2.key := le_of_eq heq.symm
      simp only [decide_eq_true_eq, if_pos h1, if_pos h2] at hle
      have hij : a.1 < b.1 := lt_of_le_of_ne (by exact_mod_cast hle) hne
      have := List.pairwise_iff_getElem.1 hidx a.1 b.1 hai hbi hij
      rw [haeq, hbeq] at this
      exact this
  · simp only [decide_eq_true_eq, if_neg h1] at hle
    exact absurd hle (by simp)

/-! ## Invariants of the classification loop -/

/-- Elements of the `robust_slices` accumulator are geometry-branch slices. -/
theorem classifyAux_robust_mem (l : List RawSlice) :
    ∀ (i : ℕ) (st : ClassState),
      (∀ x ∈ st.robust, x.geo = true ∧ (geoFields x.slice).isSome = true) →
      ∀ x ∈ (classifyAux i st l).robust,
        x.geo = true ∧ (geoFields x.slice).isSome = true := by
  induction l with
  | nil => intro i st h; exact h
  | cons s rest ih =>
    intro i st h
    refine ih (i + 1) (classifyStep st i s) ?_
    intro x hx
    cases hgs : geoFields s with
    | some pq =>
      simp only [classifyStep, hgs, List.mem_append, List.mem_singleton] at hx
      rcases hx with hx | rfl
      · exact h x hx
      · exact ⟨rfl, by simp [hgs]⟩
    | none =>
      simp only [classifyStep, hgs] at hx
      exact h x hx

/-- Elements of the `fallback_slices` accumulator are fallback-branch
slices carrying the fallback key. -/
theorem classifyAux_fallback_mem (l : List RawSlice) :
    ∀ (i : ℕ) (st : ClassState),
      (∀ x ∈ st.fallback, x.geo = false ∧ geoFields x.slice = none ∧
        x.key = fallbackKey x.slice) →
      ∀ x ∈ (classifyAux i st l).fallback,
        x.geo = false ∧ geoFields x.slice = none ∧ x.key = fallbackKey x.slice := by
  induction l with
  | nil => intro i st h; exact h
  | cons s rest ih =>
    intro i st h
    refine ih (i + 1) (classifyStep st i s) ?_
    intro x hx
    cases hgs : geoFields s with
    | some pq =>
      simp only [classifyStep, hgs] at hx
      exact h x hx
    | none =>
      simp only [classifyStep, hgs, List.mem_append, List.mem_singleton] at hx
      rcases hx with hx | rfl
      · exact h x hx
      · exact ⟨rfl, hgs, rfl⟩

/-- Parse indices in either accumulator stay below the running index and are
strictly increasing along each accumulator. -/
theorem classifyAux_idx (l : List RawSlice) :
    ∀ (i : ℕ) (st : ClassState),
      (∀ x ∈ st.robust, x.idx < i) → (∀ x ∈ st.fallback, x.idx < i) →
      (st.robust.Pairwise fun a b => a.idx < b.idx) →
      (st.fallback.Pairwise fun a b => a.idx < b.idx) →
      ((classifyAux i st l).robust.Pairwise fun a b => a.idx < b.idx) ∧
      ((classifyAux i st l).fallback.Pairwise fun a b => a.idx < b.idx) := by
  induction l with
  | nil => intro i st _ _ hr hf; exact ⟨hr, hf⟩
  | cons s rest ih =>
    intro i st hbr hbf hr hf
    cases hgs : geoFields s with
    | some pq =>
      refine ih (i + 1) (classifyStep st i s) ?_ ?_ ?_ ?_
      · intro x hx
        simp only [classifyStep, hgs, List.mem_append, List.mem_singleton] at hx
        rcases hx with hx | rfl
        · exact Nat.lt_succ_of_lt (hbr x hx)
        · exact Nat.lt_succ_self i
      · intro x hx
        simp only [classifyStep, hgs] at hx
        exact Nat.lt_succ_of_lt (hbf x hx)
      · simp only [classifyStep, hgs]
        refine List.pairwise_append.2 ⟨hr, List.pairwise_singleton _ _, ?_⟩
        intro a ha b hb
        simp only [List.mem_singleton] at hb
        subst hb
        exact hbr a ha
      · simp only [classifyStep, hgs]
        exact hf
    | none =>
      refine ih (i + 1) (classifyStep st i s) ?_ ?_ ?_ ?_
      · intro x hx
        simp only [classifyStep, hgs] at hx
        exact Nat.lt_succ_of_lt (hbr x hx)
      · intro x hx
        simp only [classifyStep, hgs, List.mem_append, List.mem_singleton] at hx
        rcases hx with hx | rfl
        · exact Nat.lt_succ_of_lt (hbf x hx)
        · exact Nat.lt_succ_self i
      · simp only [classifyStep, hgs]
        exact hr
      · simp only [classifyStep, hgs]
        refine List.pairwise_append.2 ⟨hf, List.pairwise_singleton _ _, ?_⟩
        intro a ha b hb
        simp only [List.mem_singleton] at hb
        subst hb
        exact hbf a ha

/-- Classification distributes the parsed slices between the two
accumulators: no slice is dropped or duplicated. -/
theorem classifyAux_perm (l : List RawSlice) :
    ∀ (i : ℕ) (st : ClassState),
      List.Perm
        ((classifyAux i st l).robust.map Tagged.slice ++
          (classifyAux i st l).fallback.map Tagged.slice)
        ((st.robust.map Tagged.slice ++ st.fallback.map Tagged.slice) ++ l) := by
  induction l with
  | nil => intro i st; simp [classifyAux]
  | cons s rest ih =>
    intro i st
    show List.Perm
      ((classifyAux (i + 1) (classifyStep st i s) rest).robust.map Tagged.slice ++
        (classifyAux (i + 1) (classifyStep st i s) rest).fallback.map Tagged.slice) _
    have hstep := ih (i + 1) (classifyStep st i s)
    refine hstep.trans ?_
    have hclass : List.Perm
        ((classifyStep st i s).robust.map Tagged.slice ++
          (classifyStep st i s).fallback.map Tagged.slice)
        ((st.robust.map Tagged.slice ++ st.fallback.map Tagged.slice) ++ [s]) := by
      cases hgs : geoFields s with
      | some pq =>
        simp only [classifyStep, hgs, List.map_append, List.map_cons, List.map_nil]
        rw [List.append_assoc, List.append_assoc]
        exact List.Perm.append_left _ List.perm_append_comm
      | none =>
        simp only [classifyStep, hgs, List.map_append, List.map_cons, List.map_nil]
        rw [List.append_assoc]
    have h2 := hclass.append_right rest
    refine h2.trans ?_
    rw [List.append_assoc, List.singleton_append]

/-- The accumulators together hold exactly one entry per classified slice. -/
theorem classifyAux_length (l : List RawSlice) :
    ∀ (i : ℕ) (st : ClassState),
      (classifyAux i st l).robust.length + (classifyAux i st l).fallback.length =
        st.robust.length + st.fallback.length + l.length := by
  induction l with
  | nil => intro i st; simp [classifyAux]
  | cons s rest ih =>
    intro i st
    have hstep := ih (i + 1) (classifyStep st i s)
    have hone : (classifyStep st i s).robust.length +
        (classifyStep st i s).fallback.length =
        st.robust.length + st.fallback.length + 1 := by
      cases hgs : geoFields s with
      | some pq => simp [classifyStep, hgs]; omega
      | none => simp [classifyStep, hgs]; omega
    show (classifyAux (i + 1) (classifyStep st i s) rest).robust.length +
        (classifyAux (i + 1) (classifyStep st i s) rest).fallback.length = _
    rw [hstep, hone]
    simp only [List.length_cons]
    omega

/-! ## Claim C1 -/

/-- C1: for every DICOM series the resolver stacks, the emitted slice order
is all geometry-resolvable slices (3-vector position and 6-vector
orientation) first, sorted ascending by their order key with ties in parse
order (stable sort), followed by all fallback slices sorted ascending by
their fallback key (slice location, else instance number, else 0) with ties
in parse order; the two groups are never interleaved, every parsed slice
appears exactly once, and the stacked volume is this order cropped and
stacked. -/
theorem C1_emitted_order (files : List DFile) (out : List Tagged)
    (h : stackTagged files = .ok out) :
    ∃ g fb, out = g ++ fb
      ∧ (∀ x ∈ g, x.geo = true ∧ (geoFields x.slice).isSome = true)
      ∧ (∀ x ∈ fb, x.geo = false ∧ geoFields x.slice = none ∧
          x.key = fallbackKey x.slice)
      ∧ g.Pairwise stableLT
      ∧ fb.Pairwise stableLT
      ∧ List.Perm (out.map Tagged.slice) (parsedSlices files)
      ∧ _stack_dicom_series_from_dir files =
          .ok (cropStack (out.map fun x => x.slice.pixels)) := by
  have hvol : _stack_dicom_series_from_dir files =
      .ok (cropStack (out.map fun x => x.slice.pixels)) := by
    unfold _stack_dicom_series_from_dir
    rw [h]
    rfl
  unfold stackTagged at h
  split at h
  · exact absurd h (by simp)
  · rw [if_neg] at h
    swap
    · intro hcon
      rw [if_pos hcon] at h
      exact absurd h (by simp)
    injection h with hout
    refine ⟨(classifySlices (parsedSlices files)).robust.mergeSort keyLE,
      (classifySlices (parsedSlices files)).fallback.mergeSort keyLE,
      hout.symm, ?_, ?_, ?_, ?_, ?_, hvol⟩
    · intro x hx
      exact classifyAux_robust_mem (parsedSlices files) 0 ⟨[], [], none, none⟩
        (by intro x hx; simp at hx) x (List.mem_mergeSort.1 hx)
    · intro x hx
      exact classifyAux_fallback_mem (parsedSlices files) 0 ⟨[], [], none, none⟩
        (by intro x hx; simp at hx) x (List.mem_mergeSort.1 hx)
    · refine mergeSort_key_stable ?_
      exact (classifyAux_idx (parsedSlices files) 0 ⟨[], [], none, none⟩
        (by intro x hx; simp at hx) (by intro x hx; simp at hx)
        (by simp) (by simp)).1
    · refine mergeSort_key_stable ?_
      exact (classifyAux_idx (parsedSlices files) 0 ⟨[], [], none, none⟩
        (by intro x hx; simp at hx) (by intro x hx; simp at hx)
        (by simp) (by simp)).2
    · rw [← hout, List.map_append]
      have h1 : List.Perm
          (((classifySlices (parsedSlices files)).robust.mergeSort keyLE).map
            Tagged.slice)
          ((classifySlices (parsedSlices files)).robust.map Tagged.slice) :=
        (List.mergeSort_perm _ _).map Tagged.slice
      have h2 : List.Perm
          (((classifySlices (parsedSlices files)).fallback.mergeSort keyLE).map
            Tagged.slice)
          ((classifySlices (parsedSlices files)).fallback.map Tagged.slice) :=
        (List.mergeSort_perm _ _).map Tagged.slice
      refine (h1.append h2).trans ?_
      have h3 := classifyAux_perm (parsedSlices files) 0 ⟨[], [], none, none⟩
      simpa using h3

/-- A concrete mixed series: two geometry-resolvable slices (discovered out
of order), one slice with only a slice location, one with no ordering tags,
one unreadable file and one non-DICOM file. -/
def c1s1 : RawSlice := ⟨[[2]], some [0, 0, 2], some [1, 0, 0, 0, 1, 0], none, none⟩

def c1s2 : RawSlice := ⟨[[1]], some [0, 0, 1], some [1, 0, 0, 0, 1, 0], none, none⟩

def c1s3 : RawSlice := ⟨[[5]], none, none, none, some 5⟩

def c1s4 : RawSlice := ⟨[[9]], none, none, none, none⟩

def c1Files : List DFile :=
  [⟨"b.dcm", some c1s1⟩, ⟨"a.dcm", some c1s2⟩, ⟨"c.dcm", some c1s3⟩,
   ⟨"d.dcm", some c1s4⟩, ⟨"bad.dcm", none⟩, ⟨"notes.txt", none⟩]

/-- The order the resolver emits for `c1Files`. -/
def c1Out : List Tagged :=
  [⟨-1, 1, true, c1s2⟩, ⟨0, 0, true, c1s1⟩, ⟨0, 3, false, c1s4⟩, ⟨5, 2, false, c1s3⟩]

/-- C1 witness: the emission-order theorem applied to the concrete series
`c1Files`. -/
theorem C1_emitted_order_witness :
    ∃ g fb, c1Out = g ++ fb
      ∧ (∀ x ∈ g, x.geo = true ∧ (geoFields x.slice).isSome = true)
      ∧ (∀ x ∈ fb, x.geo = false ∧ geoFields x.slice = none ∧
          x.key = fallbackKey x.slice)
      ∧ g.Pairwise stableLT
      ∧ fb.Pairwise stableLT
      ∧ List.Perm (c1Out.map Tagged.slice) (parsedSlices c1Files)
      ∧ _stack_dicom_series_from_dir c1Files =
          .ok (cropStack (c1Out.map fun x => x.slice.pixels)) :=
  C1_emitted_order c1Files c1Out (by with_unfolding_all decide)

/-! ## Claim C6 -/

/-- C6: series assembly fails with `NoDicomFound` exactly when no file with
a DICOM extension exists under the extraction root, with `EmptySeries`
exactly when such files exist but every parse attempt failed, and succeeds
(unparsable files skipped) as soon as at least one usable slice remains. -/
theorem C6_error_taxonomy (files : List DFile) :
    (_stack_dicom_series_from_dir files = .error .noDicomFound ↔
      files.filter (fun f => isDicomName f.name) = [])
    ∧ (_stack_dicom_series_from_dir files = .error .emptySeries ↔
      (files.filter (fun f => isDicomName f.name) ≠ [] ∧
        ∀ f ∈ files.filter (fun f => isDicomName f.name), f.parse = none))
    ∧ ((∃ f ∈ files.filter (fun f => isDicomName f.name), f.parse ≠ none) →
      ∃ v, _stack_dicom_series_from_dir files = .ok v) := by
  have hlen : (classifySlices (parsedSlices files)).robust.length +
      (classifySlices (parsedSlices files)).fallback.length =
      (parsedSlices files).length := by
    have := classifyAux_length (parsedSlices files) 0 ⟨[], [], none, none⟩
    simpa [classifySlices] using this
  have hempty : ((classifySlices (parsedSlices files)).robust.isEmpty ∧
      (classifySlices (parsedSlices files)).fallback.isEmpty) ↔
      parsedSlices files = [] := by
    rw [List.isEmpty_iff, List.isEmpty_iff, ← List.length_eq_zero,
      ← List.length_eq_zero, ← List.length_eq_zero]
    omega
  have hnil : parsedSlices files = [] ↔
      ∀ f ∈ files.filter (fun f => isDicomName f.name), f.parse = none := by
    unfold parsedSlices
    exact List.filterMap_eq_nil_iff
  by_cases h1 : (files.filter fun f => isDicomName f.name).isEmpty
  · have hf : files.filter (fun f => isDicomName f.name) = [] :=
      List.isEmpty_iff.1 h1
    have hres : _stack_dicom_series_from_dir files = .error .noDicomFound := by
      unfold _stack_dicom_series_from_dir stackTagged
      rw [if_pos h1]
      rfl
    refine ⟨⟨fun _ => hf, fun _ => hres⟩, ?_, ?_⟩
    · rw [hres]
      exact iff_of_false (by simp) (fun hcon => hcon.1 hf)
    · rintro ⟨f, hfm, _⟩
      rw [hf] at hfm
      exact absurd hfm (List.not_mem_nil f)
  · have hf : files.filter (fun f => isDicomName f.name) ≠ [] := by
      intro hcon
      exact h1 (by simp [hcon])
    by_cases h2 : (classifySlices (parsedSlices files)).robust.isEmpty ∧
        (classifySlices (parsedSlices files)).fallback.isEmpty
    · have hall := hnil.1 (hempty.1 h2)
      have hres : _stack_dicom_series_from_dir files = .error .emptySeries := by
        unfold _stack_dicom_series_from_dir stackTagged
        rw [if_neg h1, if_pos h2]
        rfl
      refine ⟨?_, ⟨fun _ => ⟨hf, hall⟩, fun _ => hres⟩, ?_⟩
      · rw [hres]
        exact iff_of_false (by simp) (fun hcon => hf hcon)
      · rintro ⟨f, hfm, hfp⟩
        exact absurd (hall f hfm) hfp
    · have hres : _stack_dicom_series_from_dir files =
          .ok (cropStack
            (((classifySlices (parsedSlices files)).robust.mergeSort keyLE ++
              (classifySlices (parsedSlices files)).fallback.mergeSort keyLE).map
                fun x => x.slice.pixels)) := by
        unfold _stack_dicom_series_from_dir stackTagged
        rw [if_neg h1, if_neg h2]
        rfl
      refine ⟨?_, ?_, fun _ => ⟨_, hres⟩⟩
      · rw [hres]
        exact iff_of_false (by simp) (fun hcon => hf hcon)
      · rw [hres]
        refine iff_of_false (by simp) (fun hcon => ?_)
        exact h2 (hempty.2 (hnil.2 hcon.2))

/-! ## Claim C2 -/

/-- The slice order the resolver produces (the stacked slices before
cropping). -/
def sliceOrder (files : List DFile) : Except StackError (List RawSlice) :=
  (stackTagged files).map fun l => l.map Tagged.slice

/-- The slice normal: cross product of the orientation's row and column
direction vectors. -/
def normalOf (iop : List ℚ) : List ℚ := cross3 (iop.take 3) (iop.drop 3)

/-- The position vector of a geometry-resolvable slice. -/
def geoPos (s : RawSlice) : List ℚ := s.ipp.getD []

/-- The projection of a slice position onto the normal of the common
orientation `iop₀` (the order key up to a constant shift). -/
def projKey (iop₀ : List ℚ) (s : RawSlice) : ℚ :=
  dot3 (geoPos s) (normalOf iop₀)

/-- A parsed file whose slice is geometry-resolvable. -/
def geoResolvable (f : DFile) : Bool :=
  match f.parse with
  | none => false
  | some s => (geoFields s).isSome

/-- Two slices at positions `(0,0,0)` and `(0,0,1)`, both with full
position+orientation metadata but with opposite slice normals
(`(0,0,1)` versus `(0,0,-1)`). -/
def c2A : DFile := ⟨"a.dcm", some ⟨[[0]], some [0, 0, 0], some [1, 0, 0, 0, 1, 0], none, none⟩⟩

def c2B : DFile := ⟨"b.dcm", some ⟨[[1]], some [0, 0, 1], some [0, 1, 0, 1, 0, 0], none, none⟩⟩

/-- C2 counterexample: a DICOM set in which every slice carries full
position+orientation metadata, yet the resolver's slice order depends on
the discovery order — because the geometric reference (position and normal)
is taken from the first slice encountered and here the two slices' normals
point in opposite directions.  So the claimed permutation invariance fails
as stated. -/
theorem C2_counterexample :
    ([c2A, c2B].all geoResolvable = true)
    ∧ List.Perm [c2A, c2B] [c2B, c2A]
    ∧ sliceOrder [c2A, c2B] ≠ sliceOrder [c2B, c2A] := by
  refine ⟨by with_unfolding_all decide, List.Perm.swap _ _ _, ?_⟩
  with_unfolding_all decide

/-- The tag the classification loop attaches to a geometry-resolvable slice
once the reference `(p₀, n₀)` is fixed. -/
def robustTag (p₀ n₀ : List ℚ) (p : ℕ × RawSlice) : Tagged :=
  ⟨dot3 (sub3 (geoPos p.2) p₀) n₀, p.1, true, p.2⟩

theorem classifyAux_all_geo (iop₀ : List ℚ) (l : List RawSlice) :
    ∀ (i : ℕ) (st : ClassState) (p₀ n₀ : List ℚ),
      st.refIpp = some p₀ → st.refNormal = some n₀ →
      (∀ s ∈ l, geoFields s = some (geoPos s, iop₀)) →
      classifyAux i st l =
        { robust := st.robust ++ (l.enumFrom i).map (robustTag p₀ n₀),
          fallback := st.fallback, refIpp := some p₀, refNormal := some n₀ } := by
  induction l with
  | nil =>
    intro i st p₀ n₀ hip hn _
    simp only [classifyAux, List.enumFrom, List.map_nil, List.append_nil]
    cases st
    simp_all
  | cons s rest ih =>
    intro i st p₀ n₀ hip hn hgeo
    have hgs : geoFields s = some (geoPos s, iop₀) := hgeo s (by simp)
    show classifyAux (i + 1) (classifyStep st i s) rest = _
    have hstep : classifyStep st i s =
        { robust := st.robust ++ [robustTag p₀ n₀ (i, s)],
          fallback := st.fallback, refIpp := some p₀, refNormal := some n₀ } := by
      simp only [classifyStep, hgs, geoKey, hip, hn, robustTag]
      simp
    rw [hstep]
    rw [ih (i + 1) _ p₀ n₀ rfl rfl (fun t ht => hgeo t (by simp [ht]))]
    simp [List.enumFrom, List.append_assoc]

/-- When every parsed slice is geometry-resolvable with the common
orientation `iop₀`, the classification puts every slice into
`robust_slices` with key `(position − first position) · normal` and leaves
`fallback_slices` empty. -/
theorem classifySlices_all_geo (s₀ : RawSlice) (rest : List RawSlice) (iop₀ : List ℚ)
    (hgeo : ∀ s ∈ s₀ :: rest, geoFields s = some (geoPos s, iop₀)) :
    classifySlices (s₀ :: rest) =
      { robust := ((s₀ :: rest).enum).map (robustTag (geoPos s₀) (normalOf iop₀)),
        fallback := [], refIpp := some (geoPos s₀),
        refNormal := some (normalOf iop₀) } := by
  have hgs : geoFields s₀ = some (geoPos s₀, iop₀) := hgeo s₀ (by simp)
  show classifyAux 1 (classifyStep ⟨[], [], none, none⟩ 0 s₀) rest = _
  have hstep : classifyStep ⟨[], [], none, none⟩ 0 s₀ =
      { robust := [robustTag (geoPos s₀) (normalOf iop₀) (0, s₀)],
        fallback := [], refIpp := some (geoPos s₀),
        refNormal := some (normalOf iop₀) } := by
    simp only [classifyStep, hgs, geoKey, robustTag, normalOf]
    simp
  rw [hstep]
  rw [classifyAux_all_geo iop₀ rest 1 _ (geoPos s₀) (normalOf iop₀) rfl rfl
    (fun t ht => hgeo t (by simp [ht]))]
  simp [List.enum, List.enumFrom]

theorem dot3_sub3 (u v n : List ℚ) : dot3 (sub3 u v) n = dot3 u n - dot3 v n := by
  simp only [dot3, sub3, List.getD, List.get?, Option.getD_some]
  ring

/-- Under the common-orientation hypothesis the stable sort of the robust
group, projected back to slices, is a permutation of the parsed slices that
is strictly sorted by the projection onto the common normal. -/
theorem robust_sorted_char (s₀ : RawSlice) (rest : List RawSlice) (iop₀ : List ℚ)
    (hgeo : ∀ s ∈ s₀ :: rest, geoFields s = some (geoPos s, iop₀))
    (hdist : (s₀ :: rest).Pairwise fun s t => projKey iop₀ s ≠ projKey iop₀ t) :
    List.Perm
      (((classifySlices (s₀ :: rest)).robust.mergeSort keyLE).map Tagged.slice)
      (s₀ :: rest)
    ∧ (((classifySlices (s₀ :: rest)).robust.mergeSort keyLE).map Tagged.slice).Pairwise
        (fun s t => projKey iop₀ s < projKey iop₀ t) := by
  rw [classifySlices_all_geo s₀ rest iop₀ hgeo]
  set R := ((s₀ :: rest).enum).map (robustTag (geoPos s₀) (normalOf iop₀)) with hR
  have hmapR : R.map Tagged.slice = s₀ :: rest := by
    rw [hR, List.map_map]
    have : (Tagged.slice ∘ robustTag (geoPos s₀) (normalOf iop₀)) =
        Prod.snd := by
      funext p
      rfl
    rw [this, List.enum_map_snd]
  have hperm : List.Perm ((R.mergeSort keyLE).map Tagged.slice) (s₀ :: rest) := by
    rw [← hmapR]
    exact (List.mergeSort_perm _ _).map Tagged.slice
  refine ⟨hperm, ?_⟩
  have hkey : ∀ x ∈ R.mergeSort keyLE,
      x.key = projKey iop₀ x.slice - dot3 (geoPos s₀) (normalOf iop₀) := by
    intro x hx
    have hxR : x ∈ R := List.mem_mergeSort.1 hx
    rw [hR] at hxR
    obtain ⟨p, _, rfl⟩ := List.mem_map.1 hxR
    simp only [robustTag, projKey]
    exact dot3_sub3 _ _ _
  have hsorted : (R.mergeSort keyLE).Pairwise (fun a b => keyLE a b = true) :=
    List.sorted_mergeSort keyLE_trans keyLE_total _
  have hdistR : R.Pairwise
      (fun a b => projKey iop₀ a.slice ≠ projKey iop₀ b.slice) := by
    rw [← List.enum_map_snd (s₀ :: rest), List.pairwise_map] at hdist
    rw [hR]
    exact hdist.map _ (fun a b h => h)
  have hne : (R.mergeSort keyLE).Pairwise
      (fun a b => projKey iop₀ a.slice ≠ projKey iop₀ b.slice) :=
    (List.Perm.pairwise_iff (fun hxy => Ne.symm hxy)
      (List.mergeSort_perm R keyLE)).2 hdistR
  have hfinal : (R.mergeSort keyLE).Pairwise
      (fun a b => projKey iop₀ a.slice < projKey iop₀ b.slice) := by
    refine (hsorted.and hne).imp_of_mem ?_
    intro a b ha hb hab
    obtain ⟨hle, hneq⟩ := hab
    have hka := hkey a ha
    have hkb := hkey b hb
    have hle' : a.key ≤ b.key := by
      simpa [keyLE] using hle
    rw [hka, hkb] at hle'
    have : projKey iop₀ a.slice ≤ projKey iop₀ b.slice := by linarith
    exact lt_of_le_of_ne this hneq
  exact hfinal.map Tagged.slice (fun a b h => h)

/-- C2 (amended): for a DICOM set in which every parsed slice carries full
position+orientation metadata with one common orientation, and whose
positions have pairwise distinct projections onto the common normal, the
slice order produced by the resolver is invariant under permutation of the
input file list, even though the geometric reference is taken from the
first such slice encountered.  (The unamended claim is refuted by
`C2_counterexample`: with per-slice orientations the reference normal, and
with tied projections the stable-sort tie-break, both depend on discovery
order.) -/
theorem C2_order_invariance (files₁ files₂ : List DFile) (iop₀ : List ℚ)
    (hperm : List.Perm files₁ files₂)
    (hgeo : ∀ s ∈ parsedSlices files₁, geoFields s = some (geoPos s, iop₀))
    (hdist : (parsedSlices files₁).Pairwise fun s t =>
      projKey iop₀ s ≠ projKey iop₀ t) :
    sliceOrder files₁ = sliceOrder files₂ := by
  have hd : List.Perm (files₁.filter fun f => isDicomName f.name)
      (files₂.filter fun f => isDicomName f.name) := hperm.filter _
  have hs : List.Perm (parsedSlices files₁) (parsedSlices files₂) :=
    hd.filterMap _
  have hgeo₂ : ∀ s ∈ parsedSlices files₂, geoFields s = some (geoPos s, iop₀) :=
    fun s h => hgeo s (hs.mem_iff.2 h)
  have hdist₂ : (parsedSlices files₂).Pairwise fun s t =>
      projKey iop₀ s ≠ projKey iop₀ t :=
    (List.Perm.pairwise_iff (fun h => Ne.symm h) hs).1 hdist
  unfold sliceOrder stackTagged
  by_cases h1 : (files₁.filter fun f => isDicomName f.name).isEmpty
  · have h1' : (files₂.filter fun f => isDicomName f.name).isEmpty = true := by
      rw [List.isEmpty_iff_length_eq_zero] at h1 ⊢
      rw [← hd.length_eq]
      exact h1
    rw [if_pos h1, if_pos h1']
  · have h1' : ¬ (files₂.filter fun f => isDicomName f.name).isEmpty = true := by
      intro hcon
      apply h1
      rw [List.isEmpty_iff_length_eq_zero] at hcon ⊢
      rw [hd.length_eq]
      exact hcon
    rw [if_neg h1, if_neg h1']
    cases hsl1 : parsedSlices files₁ with
    | nil =>
      have hsl2 : parsedSlices files₂ = [] := by
        have hlen := hs.length_eq
        rw [hsl1] at hlen
        exact List.length_eq_zero.1 hlen.symm
      rw [hsl2]
    | cons s₀ rest =>
      have hsl2 : ∃ t₀ rest₂, parsedSlices files₂ = t₀ :: rest₂ := by
        cases h2 : parsedSlices files₂ with
        | nil =>
          have hlen := hs.length_eq
          rw [hsl1, h2] at hlen
          exact absurd hlen (by simp)
        | cons t₀ r => exact ⟨t₀, r, rfl⟩
      obtain ⟨t₀, rest₂, hsl2⟩ := hsl2
      rw [hsl1] at hgeo hdist
      rw [hsl2] at hgeo₂ hdist₂
      rw [hsl1, hsl2] at hs
      have hchar1 := classifySlices_all_geo s₀ rest iop₀ hgeo
      have hchar2 := classifySlices_all_geo t₀ rest₂ iop₀ hgeo₂
      have ⟨hp1, hsort1⟩ := robust_sorted_char s₀ rest iop₀ hgeo hdist
      have ⟨hp2, hsort2⟩ := robust_sorted_char t₀ rest₂ iop₀ hgeo₂ hdist₂
      have hcond1 : ¬ ((classifySlices (s₀ :: rest)).robust.isEmpty = true ∧
          (classifySlices (s₀ :: rest)).fallback.isEmpty = true) := by
        rw [hchar1]
        simp [List.enum_cons]
      have hcond2 : ¬ ((classifySlices (t₀ :: rest₂)).robust.isEmpty = true ∧
          (classifySlices (t₀ :: rest₂)).fallback.isEmpty = true) := by
        rw [hchar2]
        simp [List.enum_cons]
      rw [hsl2, if_neg hcond1, if_neg hcond2]
      have hfb1 : (classifySlices (s₀ :: rest)).fallback = [] := by rw [hchar1]
      have hfb2 : (classifySlices (t₀ :: rest₂)).fallback = [] := by rw [hchar2]
      rw [hfb1, hfb2]
      simp only [Except.map, List.mergeSort_nil, List.append_nil, Except.ok.injEq]
      haveI hanti : IsAntisymm RawSlice
          (fun s t => projKey iop₀ s < projKey iop₀ t) :=
        ⟨fun a b hab hba => absurd (lt_trans hab hba) (lt_irrefl _)⟩
      exact List.eq_of_perm_of_sorted (hp1.trans (hs.trans hp2.symm)) hsort1 hsort2

/-- The spec's synthetic series: three slices at positions `(0,0,0)`,
`(0,0,1)`, `(0,0,2)` with identical orientation. -/
def c2wFiles : List DFile :=
  [⟨"z0.dcm", some ⟨[[0]], some [0, 0, 0], some [1, 0, 0, 0, 1, 0], none, none⟩⟩,
   ⟨"z1.dcm", some ⟨[[1]], some [0, 0, 1], some [1, 0, 0, 0, 1, 0], none, none⟩⟩,
   ⟨"z2.dcm", some ⟨[[4]], some [0, 0, 2], some [1, 0, 0, 0, 1, 0], none, none⟩⟩]

/-- C2 witness: the amended invariance theorem applied to the spec's
three-slice series submitted in reversed file-system order. -/
theorem C2_order_invariance_witness :
    sliceOrder c2wFiles = sliceOrder c2wFiles.reverse :=
  C2_order_invariance c2wFiles c2wFiles.reverse [1, 0, 0, 0, 1, 0]
    (List.reverse_perm c2wFiles).symm
    (by with_unfolding_all decide)
    (by with_unfolding_all decide)

/-! ## Mask confidence (claims C4 and C9)

Both `_infer_3d_nifti` and `_infer_3d_dicom_zip` compute, per prompt, over
the existence-gated probability volume `gated` (flattened to a list here):
`vol_mask_bin = (gated > threshold).int()` and
`mask_conf = float(gated[vol_mask_bin > 0].mean().item())
  if (vol_mask_bin > 0).any() else 0.0`. -/

/-- `(gated > threshold).int()`: the elementwise binarisation. -/
def maskBinarize (t : ℚ) (gated : List ℚ) : List ℤ :=
  gated.map fun p => if t < p then 1 else 0

/-- Boolean-mask selection `vals[mask > 0]`. -/
def boolSelect (vals : List ℚ) (mask : List ℤ) : List ℚ :=
  (vals.zip mask).filterMap fun vm => if 0 < vm.2 then some vm.1 else none

/-- `.mean()` of a tensor, as sum over count. -/
def listMean (xs : List ℚ) : ℚ := xs.sum / xs.length

/-- The `mask_conf` expression of `_infer_3d_nifti` / `_infer_3d_dicom_zip`. -/
def maskConfidence (t : ℚ) (gated : List ℚ) : ℚ :=
  if (maskBinarize t gated).any (fun b => decide (0 < b)) then
    listMean (boolSelect gated (maskBinarize t gated))
  else 0

/-- The spec's wording of the same quantity, for the refinement comparison:
the mean gated probability over exactly the voxels whose gated probability
exceeds the threshold, or `0.0` when there is no such voxel. -/
def specMaskConfidence (t : ℚ) (gated : List ℚ) : ℚ :=
  if (gated.filter fun p => decide (t < p)).isEmpty then 0
  else (gated.filter fun p => decide (t < p)).sum /
    (gated.filter fun p => decide (t < p)).length

theorem foreground_select (t : ℚ) (gated : List ℚ) :
    boolSelect gated (maskBinarize t gated) =
      gated.filter fun p => decide (t < p) := by
  induction gated with
  | nil => rfl
  | cons p rest ih =>
    by_cases h : t < p
    · simp only [boolSelect, maskBinarize, List.map_cons, List.zip_cons_cons,
        List.filterMap_cons, if_pos h, List.filter_cons] at *
      simp [h, ih]
    · simp only [boolSelect, maskBinarize, List.map_cons, List.zip_cons_cons,
        List.filterMap_cons, if_neg h, List.filter_cons] at *
      simp [h, ih]

theorem any_pos_iff (t : ℚ) (gated : List ℚ) :
    (maskBinarize t gated).any (fun b => decide (0 < b)) = true ↔
      (gated.filter fun p => decide (t < p)) ≠ [] := by
  rw [maskBinarize]
  constructor
  · intro h
    obtain ⟨b, hbm, hbpos⟩ := List.any_eq_true.1 h
    obtain ⟨p, hp, rfl⟩ := List.mem_map.1 hbm
    intro hcon
    have hmem : p ∈ gated.filter fun p => decide (t < p) := by
      refine List.mem_filter.2 ⟨hp, ?_⟩
      by_cases hc : t < p
      · simpa using hc
      · rw [if_neg hc] at hbpos
        exact absurd hbpos (by simp)
    rw [hcon] at hmem
    exact absurd hmem (List.not_mem_nil p)
  · intro h
    obtain ⟨p, hp⟩ := List.exists_mem_of_ne_nil _ h
    obtain ⟨hpg, hpt⟩ := List.mem_filter.1 hp
    refine List.any_eq_true.2
      ⟨if t < p then (1 : ℤ) else 0, List.mem_map_of_mem _ hpg, ?_⟩
    rw [if_pos (by simpa using hpt)]
    simp

/-- C4: for every prompt result of 3D inference, `mask_confidence` is
exactly `0.0` when no voxel's existence-gated probability exceeds the
threshold, and otherwise is the mean of the gated probabilities over
exactly the voxels exceeding the threshold — i.e. the code's
mask-then-select-then-mean computation equals the spec's description. -/
theorem C4_mask_confidence (t : ℚ) (gated : List ℚ) :
    maskConfidence t gated = specMaskConfidence t gated := by
  unfold maskConfidence specMaskConfidence
  by_cases h : (gated.filter fun p => decide (t < p)) = []
  · rw [if_neg, if_pos (by simpa using h)]
    intro hcon
    exact (any_pos_iff t gated).1 hcon h
  · rw [if_pos ((any_pos_iff t gated).2 h), if_neg (by simpa using h)]
    rw [foreground_select, listMean]

theorem mul_length_lt_sum (t : ℚ) :
    ∀ xs : List ℚ, (∀ p ∈ xs, t < p) → xs ≠ [] →
      t * xs.length < xs.sum := by
  have hle : ∀ xs : List ℚ, (∀ p ∈ xs, t < p) → t * xs.length ≤ xs.sum := by
    intro xs
    induction xs with
    | nil => intro _; simp
    | cons p rest ih =>
      intro hall
      have hp : t < p := hall p (by simp)
      have hr := ih fun q hq => hall q (by simp [hq])
      simp only [List.sum_cons, List.length_cons]
      push_cast
      nlinarith
  intro xs hall hne
  obtain ⟨p, rest, rfl⟩ := List.exists_cons_of_ne_nil hne
  have hp : t < p := hall p (by simp)
  have hr := hle rest fun q hq => hall q (by simp [hq])
  simp only [List.sum_cons, List.length_cons]
  push_cast
  nlinarith

/-- C9: for every threshold `t` with `0 ≤ t < 1`, the mask confidence is
either exactly `0` or strictly greater than `t` — when foreground voxels
exist it is the mean of gated probabilities each strictly above `t`, so it
never lies in the interval `(0, t]`. -/
theorem C9_confidence_gap (t : ℚ) (gated : List ℚ)
    (h0 : 0 ≤ t) (h1 : t < 1) :
    maskConfidence t gated = 0 ∨ t < maskConfidence t gated := by
  by_cases h : (gated.filter fun p => decide (t < p)) = []
  · left
    unfold maskConfidence
    rw [if_neg fun hcon => (any_pos_iff t gated).1 hcon h]
  · right
    unfold maskConfidence
    rw [if_pos ((any_pos_iff t gated).2 h), foreground_select, listMean]
    have hlenpos : 0 < ((gated.filter fun p => decide (t < p)).length : ℚ) := by
      have : (gated.filter fun p => decide (t < p)).length ≠ 0 :=
        fun hcon => h (List.length_eq_zero.1 hcon)
      positivity
    rw [lt_div_iff₀ hlenpos]
    exact mul_length_lt_sum t _
      (fun p hp => by simpa using (List.mem_filter.1 hp).2) h

/-- C9 witness: threshold `1/2`, a single gated probability `3/4`. -/
theorem C9_confidence_gap_witness :
    (0 ≤ (1 : ℚ)/2 ∧ (1 : ℚ)/2 < 1) ∧
      (maskConfidence (1/2) [3/4] = 0 ∨ (1 : ℚ)/2 < maskConfidence (1/2) [3/4]) :=
  ⟨⟨by with_unfolding_all decide, by with_unfolding_all decide⟩,
    C9_confidence_gap (1/2) [3/4] (by with_unfolding_all decide)
      (by with_unfolding_all decide)⟩

/-! ## Slice batch size (claim C5) -/

/-- The process environment and accelerator state the batch-size policy
reads: `os.getenv`, `torch.cuda.is_available()`, and the total device
memory in bytes (`none` models `torch.cuda.get_device_properties(0)`
raising). -/
structure BatchEnv where
  env : String → Option String
  cudaAvailable : Bool
  deviceTotalMemory : Option ℕ

/-- Python's `int(s)` on a decimal string: optional surrounding whitespace,
optional sign, at least one digit; anything else raises (modelled as
`none`). -/
def pyParseInt (s : String) : Option ℤ :=
  let t := s.trim
  let (sgn, ds) :=
    if t.startsWith "-" then ((-1 : ℤ), (t.drop 1).data)
    else if t.startsWith "+" then ((1 : ℤ), (t.drop 1).data)
    else ((1 : ℤ), t.data)
  if ds ≠ [] ∧ ds.all Char.isDigit then
    some (sgn * (ds.foldl (fun acc c => acc * 10 + (c.toNat - '0'.toNat)) 0 : ℕ))
  else none

/-- The loop body of `_get_configured_slice_batch_size`: for each name, an
unset or empty variable, an unparsable value (`except: pass`) and a
non-positive value all fall through to the next name. -/
def envScan (e : BatchEnv) : List String → Option ℤ
  | [] => none
  | k :: rest =>
    match e.env k with
    | none => envScan e rest
    | some val =>
      if val = "" then envScan e rest
      else match pyParseInt val with
        | none => envScan e rest
        | some n => if 0 < n then some n else envScan e rest

/-- `_get_configured_slice_batch_size`: first positive integer among the two
override variables, in their fixed precedence order. -/
def _get_configured_slice_batch_size (e : BatchEnv) : Option ℤ :=
  envScan e ["BP_SLICE_BATCH_SIZE", "BP_SLICE_BATCH"]

/-- `_auto_slice_batch_size`: the accelerator-memory heuristic
(`total_mem_gb = props.total_memory / 1024**3`). -/
def _auto_slice_batch_size (e : BatchEnv) : ℤ :=
  if e.cudaAvailable = false then 1
  else match e.deviceTotalMemory with
    | none => 2
    | some bytes =>
      let gb : ℚ := (bytes : ℚ) / (1024 ^ 3)
      if gb < 6 then 1
      else if gb < 8 then 2
      else if gb < 12 then 3
      else if gb < 16 then 4
      else if gb < 24 then 6
      else 8

/-- `_effective_slice_batch_size`: Python's
`if user_specified and user_specified > 0: return int(user_specified)`
(`None` and `0` are falsy), then `env_set = ...; if env_set: return env_set`,
else the heuristic. -/
def _effective_slice_batch_size (e : BatchEnv) (user : Option ℤ) : ℤ :=
  match user with
  | some u =>
      if u ≠ 0 ∧ 0 < u then u
      else match _get_configured_slice_batch_size e with
        | some n => if n ≠ 0 then n else _auto_slice_batch_size e
        | none => _auto_slice_batch_size e
  | none =>
      match _get_configured_slice_batch_size e with
      | some n => if n ≠ 0 then n else _auto_slice_batch_size e
      | none => _auto_slice_batch_size e

/-- The claim's wording of the policy, for the refinement comparison: a
caller-supplied positive integer is used as-is; otherwise the first
positive integer parsed from the two environment variables in their fixed
precedence order; otherwise the heuristic: no accelerator → 1, else by
total device memory `<6GB→1, <8GB→2, <12GB→3, <16GB→4, <24GB→6, else→8`,
and 2 when memory cannot be queried. -/
def claimBatchSize (e : BatchEnv) (user : Option ℤ) : ℤ :=
  let envFirst : Option ℤ :=
    (["BP_SLICE_BATCH_SIZE", "BP_SLICE_BATCH"].filterMap fun k =>
      match (e.env k).bind pyParseInt with
      | some n => if 0 < n then some n else none
      | none => none).head?
  let heuristic : ℤ :=
    if ¬ e.cudaAvailable then 1
    else match e.deviceTotalMemory with
      | none => 2
      | some bytes =>
        if ((bytes : ℚ) / (1024 ^ 3)) < 6 then 1
        else if ((bytes : ℚ) / (1024 ^ 3)) < 8 then 2
        else if ((bytes : ℚ) / (1024 ^ 3)) < 12 then 3
        else if ((bytes : ℚ) / (1024 ^ 3)) < 16 then 4
        else if ((bytes : ℚ) / (1024 ^ 3)) < 24 then 6
        else 8
  match user with
  | some u => if 0 < u then u else envFirst.getD heuristic
  | none => envFirst.getD heuristic

theorem pyParseInt_empty : pyParseInt "" = none := by
  with_unfolding_all decide

theorem envScan_eq_first (e : BatchEnv) :
    ∀ keys : List String,
      envScan e keys = (keys.filterMap fun k =>
        match (e.env k).bind pyParseInt with
        | some n => if 0 < n then some n else none
        | none => none).head? := by
  intro keys
  induction keys with
  | nil => rfl
  | cons k rest ih =>
    cases hk : e.env k with
    | none => simp [envScan, hk, List.filterMap_cons, Option.bind, ih]
    | some val =>
      by_cases hval : val = ""
      · subst hval
        simp [envScan, hk, List.filterMap_cons, Option.bind, pyParseInt_empty, ih]
      · cases hp : pyParseInt val with
        | none => simp [envScan, hk, hval, hp, List.filterMap_cons, Option.bind, ih]
        | some n =>
          by_cases hpos : 0 < n
          · simp [envScan, hk, hval, hp, hpos, List.filterMap_cons, Option.bind]
          · simp [envScan, hk, hval, hp, hpos, List.filterMap_cons, Option.bind, ih]

/-- C5: the resolved slice batch size follows the strict priority the spec
states — positive caller argument, else first positive integer among the
two environment variables, else the memory-tier heuristic — with
non-positive or unparsable overrides ignored at every tier. -/
theorem C5_batch_size_policy (e : BatchEnv) (user : Option ℤ) :
    _effective_slice_batch_size e user = claimBatchSize e user := by
  have henv : ∀ fallback : ℤ,
      (match _get_configured_slice_batch_size e with
        | some n => if n ≠ 0 then n else fallback
        | none => fallback) =
      ((["BP_SLICE_BATCH_SIZE", "BP_SLICE_BATCH"].filterMap fun k =>
        match (e.env k).bind pyParseInt with
        | some n => if 0 < n then some n else none
        | none => none).head?).getD fallback := by
    intro fallback
    rw [_get_configured_slice_batch_size, envScan_eq_first]
    cases hh : (["BP_SLICE_BATCH_SIZE", "BP_SLICE_BATCH"].filterMap fun k =>
        match (e.env k).bind pyParseInt with
        | some n => if 0 < n then some n else none
        | none => none).head? with
    | none => rfl
    | some n =>
      have hpos : 0 < n := by
        have hmem := List.mem_of_mem_head? hh
        obtain ⟨k, _, hk⟩ := List.mem_filterMap.1 hmem
        revert hk
        cases (e.env k).bind pyParseInt with
        | none => intro hk; exact absurd hk (by simp)
        | some m =>
          intro hk
          dsimp only at hk
          by_cases hm : 0 < m
          · rw [if_pos hm] at hk
            cases hk
            exact hm
          · rw [if_neg hm] at hk
            exact absurd hk (by simp)
      simp [Option.getD, ne_of_gt hpos]
  have hheu : _auto_slice_batch_size e =
      (if ¬ e.cudaAvailable then 1
      else match e.deviceTotalMemory with
        | none => 2
        | some bytes =>
          if ((bytes : ℚ) / (1024 ^ 3)) < 6 then 1
          else if ((bytes : ℚ) / (1024 ^ 3)) < 8 then 2
          else if ((bytes : ℚ) / (1024 ^ 3)) < 12 then 3
          else if ((bytes : ℚ) / (1024 ^ 3)) < 16 then 4
          else if ((bytes : ℚ) / (1024 ^ 3)) < 24 then 6
          else 8 : ℤ) := by
    unfold _auto_slice_batch_size
    cases e.cudaAvailable <;> simp
  cases user with
  | none =>
      show (match _get_configured_slice_batch_size e with
        | some n => if n ≠ 0 then n else _auto_slice_batch_size e
        | none => _auto_slice_batch_size e) = _
      rw [henv, hheu]
      rfl
  | some u =>
      show (if u ≠ 0 ∧ 0 < u then u else _) = _
      by_cases hu : 0 < u
      · rw [if_pos ⟨ne_of_gt hu, hu⟩]
        show _ = (if 0 < u then u else _)
        rw [if_pos hu]
      · rw [if_neg (fun hcon => hu hcon.2)]
        show _ = (if 0 < u then u else _)
        rw [if_neg hu, henv, hheu]

/-! ## Heatmap validation (claims C7 and C10) -/

/-- A stored numpy array: its dtype name, shape, and flattened data. -/
structure NpArray where
  dtype : String
  shape : List ℕ
  data : List ℤ
deriving DecidableEq

/-- A parsed `.npz` archive: named member arrays, as `np.load` exposes
them. -/
structure NpzData where
  entries : List (String × NpArray)
deriving DecidableEq

/-- Key lookup in an `.npz` archive (`"prob" in data` / `data["prob"]`). -/
def npzLookup (d : NpzData) (k : String) : Option NpArray :=
  (d.entries.find? fun e => e.1 == k).map fun e => e.2

/-- The four values `flag not in ("1", "true", "True", "TRUE")` accepts. -/
def heatmapFlagValues : List String := ["1", "true", "True", "TRUE"]

/-- The enablement test of `_validate_heatmap_npz`:
`os.getenv("BP_VALIDATE_HEATMAP", "1")` compared against the tuple. -/
def heatmapValidationEnabled (env : String → Option String) : Bool :=
  decide ((env "BP_VALIDATE_HEATMAP").getD "1" ∈ heatmapFlagValues)

/-- `_validate_heatmap_npz` on an artifact that loaded: when enabled,
require the `prob` key and dtype uint8, else raise
`HTTPException(500, f"Heatmap artifact validation failed: {e}")` with the
inner `ValueError` message interpolated (the error detail string is
returned in the `Except.error`). -/
def _validate_heatmap_npz (env : String → Option String) (npz : NpzData) :
    Except String Unit :=
  if heatmapValidationEnabled env = false then .ok ()
  else
    match npzLookup npz "prob" with
    | none =>
        .error ("Heatmap artifact validation failed: " ++
          "NPZ missing \x27prob\x27 key")
    | some arr =>
        if arr.dtype ≠ "uint8" then
          .error ("Heatmap artifact validation failed: " ++
            "Heatmap \x27prob\x27 must be uint8")
        else .ok ()

/-- A string mentions `needle` when `needle` occurs in it verbatim. -/
def mentions (needle msg : String) : Prop :=
  ∃ pre post, msg = pre ++ needle ++ post

/-- C7: when heatmap validation is enabled, a written probability artifact
with no `prob` key fails with a message mentioning `missing`, one whose
`prob` dtype is not uint8 fails with a message mentioning `uint8`, and one
with a uint8 `prob` array passes without error. -/
theorem C7_heatmap_validation (env : String → Option String) (npz : NpzData)
    (hen : heatmapValidationEnabled env = true) :
    (npzLookup npz "prob" = none →
      ∃ msg, _validate_heatmap_npz env npz = .error msg ∧ mentions "missing" msg)
    ∧ (∀ arr, npzLookup npz "prob" = some arr → arr.dtype ≠ "uint8" →
      ∃ msg, _validate_heatmap_npz env npz = .error msg ∧ mentions "uint8" msg)
    ∧ (∀ arr, npzLookup npz "prob" = some arr → arr.dtype = "uint8" →
      _validate_heatmap_npz env npz = .ok ()) := by
  have hne : ¬ (heatmapValidationEnabled env = false) := by
    rw [hen]
    simp
  refine ⟨?_, ?_, ?_⟩
  · intro h
    refine ⟨"Heatmap artifact validation failed: " ++
      "NPZ missing \x27prob\x27 key", ?_, ?_⟩
    · unfold _validate_heatmap_npz
      rw [if_neg hne, h]
    · exact ⟨"Heatmap artifact validation failed: NPZ ", " \x27prob\x27 key",
        by decide⟩
  · intro arr harr hdt
    refine ⟨"Heatmap artifact validation failed: " ++
      "Heatmap \x27prob\x27 must be uint8", ?_, ?_⟩
    · unfold _validate_heatmap_npz
      rw [if_neg hne, harr]
      dsimp only
      rw [if_pos hdt]
    · exact ⟨"Heatmap artifact validation failed: Heatmap \x27prob\x27 must be ",
        "", by decide⟩
  · intro arr harr hdt
    unfold _validate_heatmap_npz
    rw [if_neg hne, harr]
    dsimp only
    rw [if_neg (fun hcon => hcon hdt)]

/-- An environment with the validation variable unset, and three concrete
artifacts: one missing the `prob` key, one with a float32 `prob`, one with
a uint8 `prob`. -/
def c7EnvUnset : String → Option String := fun _ => none

def c7Missing : NpzData := ⟨[("notprob", ⟨"uint8", [4, 4, 4], [0]⟩)]⟩

def c7Float : NpzData := ⟨[("prob", ⟨"float32", [2], [0, 1]⟩)]⟩

def c7Good : NpzData := ⟨[("prob", ⟨"uint8", [2], [0, 255]⟩)]⟩

/-- C7 witness: the validation theorem applied to the three concrete
artifacts under the default (unset) environment. -/
theorem C7_heatmap_validation_witness :
    (∃ msg, _validate_heatmap_npz c7EnvUnset c7Missing = .error msg ∧
      mentions "missing" msg)
    ∧ (∃ msg, _validate_heatmap_npz c7EnvUnset c7Float = .error msg ∧
      mentions "uint8" msg)
    ∧ _validate_heatmap_npz c7EnvUnset c7Good = .ok () :=
  ⟨(C7_heatmap_validation c7EnvUnset c7Missing (by decide)).1 (by decide),
    (C7_heatmap_validation c7EnvUnset c7Float (by decide)).2.1
      ⟨"float32", [2], [0, 1]⟩ (by decide) (by decide),
    (C7_heatmap_validation c7EnvUnset c7Good (by decide)).2.2
      ⟨"uint8", [2], [0, 255]⟩ (by decide) (by decide)⟩

/-- C10: heatmap validation is enabled by default — an unset variable
behaves as `"1"` — and the checks run if and only if the value is exactly
one of `"1"`, `"true"`, `"True"`, `"TRUE"`; any other value (for example
`"yes"` or `"on"`) silently disables the post-write check. -/
theorem C10_validation_default (env : String → Option String) :
    (env "BP_VALIDATE_HEATMAP" = none → heatmapValidationEnabled env = true)
    ∧ (∀ v, env "BP_VALIDATE_HEATMAP" = some v →
        (heatmapValidationEnabled env = true ↔ v ∈ heatmapFlagValues))
    ∧ (heatmapValidationEnabled env = false →
        ∀ npz, _validate_heatmap_npz env npz = .ok ())
    ∧ heatmapValidationEnabled (fun _ => some "yes") = false
    ∧ heatmapValidationEnabled (fun _ => some "on") = false := by
  refine ⟨?_, ?_, ?_, by decide, by decide⟩
  · intro h
    unfold heatmapValidationEnabled
    rw [h]
    decide
  · intro v hv
    unfold heatmapValidationEnabled
    rw [hv]
    simp
  · intro h npz
    unfold _validate_heatmap_npz
    rw [if_pos h]

/-! ## Artifact fetch (claim C3)

`fetch_npz` is embedded over an abstract filesystem: `resolve` models
`Path.resolve()` (symlink following and `..` elimination live inside it;
`none` models it raising), `pathExists` models `Path.exists()`, `load`
models `np.load` (`none` models it raising).  Base64 encoding of the
returned bytes is omitted (it is an injective re-encoding of the data). -/

/-- What the endpoint returns: an `HTTPException(status, detail)`, an
exception escaping the handler (the unguarded `TMP_DIR.resolve()`), or the
success payload `{shape, dtype, data}`. -/
inductive FetchResult where
  | http : ℕ → String → FetchResult
  | serverError : FetchResult
  | payload : List ℕ → String → List ℤ → FetchResult
deriving DecidableEq

/-- The abstract filesystem the endpoint runs against. -/
structure Fs where
  resolve : List String → Option (List String)
  pathExists : List String → Bool
  load : List String → Option NpzData

/-- The path components of a request name (`pathlib` drops empty
components). -/
def pathComponents (name : String) : List String :=
  (name.splitOn "/").filter fun c => c ≠ ""

/-- `TMP_DIR / name`: pathlib replaces the whole path when `name` is
absolute. -/
def pathJoin (tmpDir : List String) (name : String) : List String :=
  if name.startsWith "/" then pathComponents name
  else tmpDir ++ pathComponents name

/-- `fetch_npz(name, key)`: extension check, resolve, containment check
against the resolved artifact directory, existence check, load, key check,
uint8 coercion (`np.clip(arr, 0, 255)` when the dtype is not uint8). -/
def fetch_npz (fs : Fs) (tmpDir : List String) (name key : String) :
    FetchResult :=
  if ¬ name.endsWith ".npz" then .http 400 "Expected .npz filename"
  else
    match fs.resolve (pathJoin tmpDir name) with
    | none => .http 400 "Invalid path"
    | some p =>
      match fs.resolve tmpDir with
      | none => .serverError
      | some rt =>
        if p.dropLast ≠ rt then .http 403 "Access denied"
        else if fs.pathExists p = false then .http 404 "File not found"
        else match fs.load p with
          | none => .http 500 "Failed to read NPZ"
          | some npz =>
            match npzLookup npz key with
            | none => .http 400 ("Key \x27" ++ key ++ "\x27 not in NPZ")
            | some arr =>
              .payload arr.shape "uint8"
                (if arr.dtype ≠ "uint8" then
                  arr.data.map fun z => max 0 (min z 255)
                else arr.data)

/-- The access-denied results: the extension rejection and the containment
rejection. -/
def isDenied : FetchResult → Bool
  | .http 400 d => d == "Expected .npz filename"
  | .http 403 _ => true
  | _ => false

/-- C3: a fetch-by-name request is denied when the name does not end in
`.npz`, or when the resolved real path's parent directory is not exactly
the controlled artifact directory; and the denial is independent of the
file-existence predicate and of the loader — two filesystems agreeing on
`resolve` (but arbitrary on `pathExists`/`load`) produce the same denied
response, so existence is only consulted after the containment check
passes. -/
theorem C3_fetch_containment (fs₁ fs₂ : Fs) (tmpDir : List String)
    (name key : String)
    (hres : fs₁.resolve = fs₂.resolve)
    (hdeny : name.endsWith ".npz" = false ∨
      (∃ p rt, fs₁.resolve (pathJoin tmpDir name) = some p ∧
        fs₁.resolve tmpDir = some rt ∧ p.dropLast ≠ rt)) :
    fetch_npz fs₁ tmpDir name key = fetch_npz fs₂ tmpDir name key
    ∧ isDenied (fetch_npz fs₁ tmpDir name key) = true := by
  by_cases hext : name.endsWith ".npz"
  · rcases hdeny with hdeny | ⟨p, rt, h1, h2, h3⟩
    · rw [hext] at hdeny
      exact absurd hdeny (by simp)
    · have hval : ∀ fs : Fs, fs.resolve = fs₁.resolve →
          fetch_npz fs tmpDir name key = .http 403 "Access denied" := by
        intro fs hfs
        unfold fetch_npz
        rw [if_neg (by simpa using hext), hfs, h1, h2]
        dsimp only
        rw [if_pos h3]
      rw [hval fs₁ rfl, hval fs₂ hres.symm]
      exact ⟨rfl, rfl⟩
  · have hval : ∀ fs : Fs,
        fetch_npz fs tmpDir name key = .http 400 "Expected .npz filename" := by
      intro fs
      unfold fetch_npz
      rw [if_pos hext]
    rw [hval fs₁, hval fs₂]
    exact ⟨rfl, rfl⟩

/-- A concrete resolver: eliminate `.` and `..` components left to right
(no symlinks). -/
def normWalk (acc : List String) : List String → List String
  | [] => acc
  | c :: rest =>
    if c = ".." then normWalk acc.dropLast rest
    else if c = "." then normWalk acc rest
    else normWalk (acc ++ [c]) rest

def c3Resolve : List String → Option (List String) := fun p => some (normWalk [] p)

def c3Npz : NpzData := ⟨[("seg", ⟨"uint8", [1], [0]⟩)]⟩

/-- A filesystem where the traversal target exists and loads. -/
def c3FsExists : Fs := ⟨c3Resolve, fun _ => true, fun _ => some c3Npz⟩

/-- A filesystem where nothing exists and nothing loads. -/
def c3FsMissing : Fs := ⟨c3Resolve, fun _ => false, fun _ => none⟩

def c3TmpDir : List String := ["root", "backend", "tmp", "biomedparse"]

/-- C3 witness: the spec's `name="../../etc/passwd.npz"` request is denied
identically whether or not the target exists. -/
theorem C3_fetch_containment_witness :
    fetch_npz c3FsExists c3TmpDir "../../etc/passwd.npz" "seg" =
      fetch_npz c3FsMissing c3TmpDir "../../etc/passwd.npz" "seg"
    ∧ isDenied (fetch_npz c3FsExists c3TmpDir "../../etc/passwd.npz" "seg") = true :=
  C3_fetch_containment c3FsExists c3FsMissing c3TmpDir "../../etc/passwd.npz" "seg"
    rfl
    (Or.inr ⟨["root", "backend", "etc", "passwd.npz"],
      ["root", "backend", "tmp", "biomedparse"],
      by with_unfolding_all decide, by with_unfolding_all decide,
      by with_unfolding_all decide⟩)

/-! ## Lazy model construction under a racing first use (claim C8)

`_init_model_3d` guards construction with a plain
`if MODEL_3D is not None: return MODEL_3D` on a module global and no lock.
Two racing first-use requests are modelled as two threads, each executing
two atomic steps: (1) read the global and either return it or pass the
`None` check, (2) construct a fresh model instance (numbered by
construction order), assign the global, and return the fresh instance.  A
schedule lists which thread advances at each step. -/

inductive InitPc where
  | start
  | building
  | finished : ℕ → InitPc
deriving DecidableEq

/-- Global `MODEL_3D` (an instance id when set), both threads' positions in
`_init_model_3d`, and how many constructions have been performed. -/
structure InitRace where
  model3d : Option ℕ
  pc1 : InitPc
  pc2 : InitPc
  builds : ℕ
deriving DecidableEq

/-- One atomic step of one thread through `_init_model_3d`. -/
def threadStep (pc : InitPc) (g : Option ℕ) (builds : ℕ) :
    InitPc × Option ℕ × ℕ :=
  match pc, g with
  | .start, some m => (.finished m, some m, builds)
  | .start, none => (.building, none, builds)
  | .building, _ => (.finished builds, some builds, builds + 1)
  | .finished m, _ => (.finished m, g, builds)

/-- Advance the scheduled thread (`false` = first, `true` = second). -/
def raceStep (s : InitRace) (t : Bool) : InitRace :=
  if t = false then
    match threadStep s.pc1 s.model3d s.builds with
    | (pc, g, b) => { model3d := g, pc1 := pc, pc2 := s.pc2, builds := b }
  else
    match threadStep s.pc2 s.model3d s.builds with
    | (pc, g, b) => { model3d := g, pc1 := s.pc1, pc2 := pc, builds := b }

/-- Run a schedule from the initial state (`MODEL_3D = None`, both requests
about to enter `_init_model_3d`, nothing constructed). -/
def raceRun (sched : List Bool) : InitRace :=
  sched.foldl raceStep ⟨none, .start, .start, 0⟩

/-- C8: the claim that the model is constructed exactly once under a racing
first use fails on the code.  Under the interleaving check₁, check₂,
construct₁, construct₂ — possible precisely because the guard is a plain
`is it None` check with no one-time-initialization lock — two
constructions occur and the two callers observe different instances;
sequential first use (one request completes before the other starts) does
memoize a single instance, confirming the guard, not the laziness, is what
is missing. -/
theorem C8_double_construction :
    (raceRun [false, true, false, true]).builds = 2
    ∧ (raceRun [false, true, false, true]).pc1 = .finished 0
    ∧ (raceRun [false, true, false, true]).pc2 = .finished 1
    ∧ (raceRun [false, true, false, true]).pc1 ≠
        (raceRun [false, true, false, true]).pc2
    ∧ (raceRun [false, false, true]).builds = 1
    ∧ (raceRun [false, false, true]).pc1 = .finished 0
    ∧ (raceRun [false, false, true]).pc2 = .finished 0 := by
  decide

end Novion
